import Mathlib

/-!
Verification of the artifact secret-leak scanner of the Altinity/actions
repository (scripts/scan_artifacts.py, with the earlier S3-only variant
scripts/scan_s3_artifacts.py).

The embedding models the scanner as pure functions.  Byte blobs are lists of
natural numbers; the Python standard-library archive decoders (tarfile,
zipfile, gzip, zstandard) and the external deb/rpm extraction tools are
external collaborators, modelled as explicit parameters of type ArchiveLib
whose results are constrained by hypotheses where a claim speaks about the
contents of an archive.  All orchestration code (pattern matching, line
scanning, environment harvesting, extension dispatch, the local and the S3
scan loops, exit-code computation) is translated directly from the source.
-/

/-- Character class of the regex fragment `[A-Z_]`. -/
def isUpperOrUnderscore (c : Char) : Bool :=
  (decide ('A' ≤ c) && decide (c ≤ 'Z')) || decide (c = '_')

/-- Length of the maximal prefix of `s` made of `[A-Z_]` characters; the
greedy star `[A-Z_]*` can consume at most this many characters. -/
def runLen : List Char → Nat
  | [] => 0
  | c :: t => if isUpperOrUnderscore c then runLen t + 1 else 0

/-- Try the keyword alternatives of the regex, in their alternation order,
against the beginning of `s`; return the length of the first keyword that is
a prefix of `s`.  Models the alternation `(SECRET|PASSWORD|ACCESS_KEY|TOKEN)`
(respectively the three-keyword variant of scan_s3_artifacts.py). -/
def tryKeywords (kws : List (List Char)) (s : List Char) : Option Nat :=
  match kws with
  | [] => none
  | k :: rest => if k.isPrefixOf s then some k.length else tryKeywords rest s

/-- One backtracking step: with the leading `[A-Z_]*` consuming exactly `d`
characters, try the keyword alternatives there and let the trailing
`[A-Z_]*` consume greedily; the result is the length of the whole match. -/
def tryAtOffset (kws : List (List Char)) (s : List Char) (d : Nat) : Option Nat :=
  (tryKeywords kws (s.drop d)).map
    (fun klen => d + klen + runLen (s.drop (d + klen)))

/-- Backtracking attempt of the pattern `[A-Z_]*(kw1|kw2|...)[A-Z_]*` at the
current position, with the leading star consuming `d` characters first and
giving characters back one at a time (the greedy order of the Python engine).
Returns the length of the whole match when one exists. -/
def matchFromAux (kws : List (List Char)) (s : List Char) : Nat → Option Nat
  | 0 => tryAtOffset kws s 0
  | Nat.succ e =>
    match tryAtOffset kws s (e + 1) with
    | some len => some len
    | none => matchFromAux kws s e

/-- Match of the compiled pattern `leaked_string_pattern` at the start of
`s`, following the greedy backtracking order of the Python regex engine:
the leading `[A-Z_]*` first consumes the whole maximal run, then backtracks.
Models `leaked_string_pattern.match(s)` (which only tries position 0). -/
def matchAt (kws : List (List Char)) (s : List Char) : Option Nat :=
  matchFromAux kws s (runLen s)

/-- Worker for `finditer`: scan the suffix left to right; at each position
try `matchAt`; on success emit the matched substring and resume after it,
otherwise advance one character.  `fuel` bounds the recursion and is set to
the length of the string. -/
def finditerAux (kws : List (List Char)) : Nat → List Char → List (List Char)
  | 0, _ => []
  | _, [] => []
  | Nat.succ fuel, c :: t =>
    match matchAt kws (c :: t) with
    | some len => (c :: t).take len :: finditerAux kws fuel ((c :: t).drop len)
    | none => finditerAux kws fuel t

/-- All non-overlapping matches of the pattern in `s`, leftmost first.
Models `leaked_string_pattern.finditer(line)`. -/
def finditer (kws : List (List Char)) (s : List Char) : List (List Char) :=
  finditerAux kws s.length s

/-- Keyword alternatives of `leaked_string_pattern` in scan_artifacts.py,
line 35: `[A-Z_]*(SECRET|PASSWORD|ACCESS_KEY|TOKEN)[A-Z_]*`. -/
def leaked_string_keywords : List (List Char) :=
  ["SECRET", "PASSWORD", "ACCESS_KEY", "TOKEN"].map String.toList

/-- Keyword alternatives of `leaked_string_pattern` in scan_s3_artifacts.py,
line 31: `[A-Z_]*(SECRET|PASSWORD|ACCESS_KEY)[A-Z_]*` (no TOKEN). -/
def leaked_string_keywords_s3 : List (List Char) :=
  ["SECRET", "PASSWORD", "ACCESS_KEY"].map String.toList

/-- Characters at which `str.splitlines` breaks a Python string. -/
def isLineBreak (c : Char) : Bool :=
  decide (c = '\n') || decide (c = '\r') || decide (c.toNat = 11) ||
  decide (c.toNat = 12) || decide (c.toNat = 28) || decide (c.toNat = 29) ||
  decide (c.toNat = 30) || decide (c.toNat = 133) ||
  decide (c.toNat = 8232) || decide (c.toNat = 8233)

/-- Worker for `splitlines`; `acc` holds the current line reversed, and
`afterCR` records that the previous character was a carriage return whose
line was already emitted, so that a directly following newline is part of
the same `\r\n` break. -/
def splitlinesAux : Bool → List Char → List Char → List (List Char)
  | _, acc, [] => if acc.isEmpty then [] else [acc.reverse]
  | afterCR, acc, c :: rest =>
    if afterCR && (c == '\n') then
      splitlinesAux false acc rest
    else if c == '\r' then
      acc.reverse :: splitlinesAux true [] rest
    else if isLineBreak c then
      acc.reverse :: splitlinesAux false [] rest
    else
      splitlinesAux false (c :: acc) rest

/-- Model of Python `str.splitlines()`: split at line-break characters,
treating a `\r\n` pair as a single break, dropping the break characters and
producing no trailing empty line. -/
def splitlines (s : List Char) : List (List Char) :=
  splitlinesAux false [] s

/-- Model of the Python substring test `needle in hay`. -/
def substrIn (needle : List Char) : List Char → Bool
  | [] => needle.isEmpty
  | c :: t => needle.isPrefixOf (c :: t) || substrIn needle t

/-- `enumerate(xs, start=k)`. -/
def enumerateFrom (k : Nat) : List α → List (Nat × α)
  | [] => []
  | a :: t => (k, a) :: enumerateFrom (k + 1) t

/-- One reported leak: the `(file_name, line_number, match)` tuple appended
by `scan_file`. -/
structure Finding where
  file_name : String
  line_number : Nat
  matched_text : String
deriving DecidableEq, Repr

/-- The scanner state that is fixed before any content is scanned: the
`env_secrets_only` flag of the LeakScanner instance, the keyword set of the
global compiled pattern, and the global `sensitive_strings` list as
populated by `scan_env_vars`. -/
structure ScannerConfig where
  env_secrets_only : Bool
  keywords : List (List Char)
  sensitive_strings : List (List Char)

/-- The truncated preview `f"{secret_string[:4]}..."` recorded instead of a
harvested secret value. -/
def secretPreview (secret : List Char) : List Char :=
  secret.take 4 ++ "...".toList

/-- Body of the per-line loop of `LeakScanner.scan_file`: pattern findings
(suppressed in env-secrets-only mode), then one finding per sensitive string
contained in the line, with the truncated preview as matched text. -/
def scan_file_line (cfg : ScannerConfig) (file_name : String) (line_number : Nat)
    (line : List Char) : List Finding :=
  (if cfg.env_secrets_only then []
   else (finditer cfg.keywords line).map
     (fun m => ⟨file_name, line_number, m.asString⟩)) ++
  ((cfg.sensitive_strings.filter (fun s => substrIn s line)).map
     (fun s => ⟨file_name, line_number, (secretPreview s).asString⟩))

/-- `LeakScanner.scan_file`: split the decoded content into lines, number
them starting at 1, and scan each line. -/
def scan_file (cfg : ScannerConfig) (file_content : List Char)
    (file_name : String) : List Finding :=
  ((enumerateFrom 1 (splitlines file_content)).map
    (fun p => scan_file_line cfg file_name p.1 p.2)).flatten

/-- `LeakScanner.scan_env_vars`: append to `sensitive_strings` the value of
every environment variable whose name matches the pattern at position 0
(`re.match` semantics), in environment iteration order. -/
def scan_env_vars (kws : List (List Char)) (env : List (String × String)) :
    List (List Char) :=
  (env.filter (fun p => (matchAt kws p.1.toList).isSome)).map
    (fun p => p.2.toList)

/-- Raw blob content: a list of byte values. -/
abbrev Bytes := List Nat

/-- UTF-8 encoding of one character. -/
def utf8EncodeChar (c : Char) : Bytes :=
  let n := c.toNat
  if n < 128 then [n]
  else if n < 2048 then [192 + n / 64, 128 + n % 64]
  else if n < 65536 then [224 + n / 4096, 128 + (n / 64) % 64, 128 + n % 64]
  else [240 + n / 262144, 128 + (n / 4096) % 64, 128 + (n / 64) % 64, 128 + n % 64]

/-- UTF-8 encoding of a string, used to build concrete byte blobs. -/
def strBytes (s : String) : Bytes :=
  (s.toList.map utf8EncodeChar).flatten

/-- Is `b` a UTF-8 continuation byte? -/
def isCont (b : Nat) : Bool := decide (128 ≤ b) && decide (b ≤ 191)

/-- Worker for `utf8DecodeIgnore`: decode one UTF-8 sequence per step and
skip the offending bytes of an ill-formed sequence, as Python
`bytes.decode("utf-8", errors="ignore")` does. -/
def utf8DecodeIgnoreAux : Nat → Bytes → List Char
  | 0, _ => []
  | _, [] => []
  | Nat.succ fuel, b :: rest =>
    if b < 128 then Char.ofNat b :: utf8DecodeIgnoreAux fuel rest
    else if 194 ≤ b ∧ b ≤ 223 then
      match rest with
      | b1 :: rest1 =>
        if isCont b1 then
          Char.ofNat ((b - 192) * 64 + (b1 - 128)) :: utf8DecodeIgnoreAux fuel rest1
        else utf8DecodeIgnoreAux fuel rest
      | [] => []
    else if 224 ≤ b ∧ b ≤ 239 then
      match rest with
      | b1 :: rest1 =>
        let okB1 : Bool :=
          if b = 224 then decide (160 ≤ b1) && decide (b1 ≤ 191)
          else if b = 237 then decide (128 ≤ b1) && decide (b1 ≤ 159)
          else isCont b1
        if okB1 then
          match rest1 with
          | b2 :: rest2 =>
            if isCont b2 then
              Char.ofNat ((b - 224) * 4096 + (b1 - 128) * 64 + (b2 - 128)) ::
                utf8DecodeIgnoreAux fuel rest2
            else utf8DecodeIgnoreAux fuel rest1
          | [] => []
        else utf8DecodeIgnoreAux fuel rest
      | [] => []
    else if 240 ≤ b ∧ b ≤ 244 then
      match rest with
      | b1 :: rest1 =>
        let okB1 : Bool :=
          if b = 240 then decide (144 ≤ b1) && decide (b1 ≤ 191)
          else if b = 244 then decide (128 ≤ b1) && decide (b1 ≤ 143)
          else isCont b1
        if okB1 then
          match rest1 with
          | b2 :: rest2 =>
            if isCont b2 then
              match rest2 with
              | b3 :: rest3 =>
                if isCont b3 then
                  Char.ofNat ((b - 240) * 262144 + (b1 - 128) * 4096 +
                      (b2 - 128) * 64 + (b3 - 128)) ::
                    utf8DecodeIgnoreAux fuel rest3
                else utf8DecodeIgnoreAux fuel rest2
              | [] => []
            else utf8DecodeIgnoreAux fuel rest1
          | [] => []
        else utf8DecodeIgnoreAux fuel rest
      | [] => []
    else utf8DecodeIgnoreAux fuel rest

/-- Model of Python `bytes.decode("utf-8", errors="ignore")`: decode valid
UTF-8 sequences and silently drop ill-formed bytes. -/
def utf8DecodeIgnore (bs : Bytes) : List Char :=
  utf8DecodeIgnoreAux bs.length bs

/-- Errors that a per-blob scan can raise: a malformed archive, a failed
read, or a missing external extraction tool (`FileNotFoundError` from
`subprocess.run`). -/
inductive ScanErr where
  | decodeError
  | readError
  | externalToolMissing
deriving DecidableEq, Repr

/-- One entry of a tar archive as exposed by `tarfile`: its member name,
whether it is a regular file, and (for regular files for which
`extractfile` returns a reader) its content. -/
structure TarMember where
  name : String
  isfile : Bool
  content : Option Bytes

/-- One entry of a zip archive as exposed by `zipfile.infolist`. -/
structure ZipMember where
  filename : String
  content : Bytes

/-- Outcome of invoking the external deb/rpm extraction tools on one blob:
either `subprocess.run` raises because the tool is missing from PATH, or the
tool process completes with some exit status leaving some regular files
under the extraction directory `/tmp/package` (read back in text mode with
`errors="ignore"`, hence listed as path/text pairs). -/
inductive ExtractOutcome where
  | raisesMissing
  | completes (returncode : Int) (extracted : List (String × String))

/-- External collaborators of the scanner: the Python standard-library
archive decoders and the deb/rpm extraction tools.  Each decoder either
returns the decoded members or fails with a decode error (malformed or
truncated input). -/
structure ArchiveLib where
  tarDecode : Bytes → Except ScanErr (List TarMember)
  tarGzDecode : Bytes → Except ScanErr (List TarMember)
  tarZstDecode : Bytes → Except ScanErr (List TarMember)
  gzDecode : Bytes → Except ScanErr Bytes
  zstDecode : Bytes → Except ScanErr Bytes
  zipDecode : Bytes → Except ScanErr (List ZipMember)
  dpkgDebRun : Bytes → ExtractOutcome
  rpmToolsRun : Bytes → ExtractOutcome

/-- Findings contributed by one tar member: regular files with readable
content are UTF-8-decoded (errors ignored) and scanned as text under the
accumulated logical path `package_name/member.name`. -/
def scanTarMember (cfg : ScannerConfig) (package_name : String)
    (m : TarMember) : List Finding :=
  if m.isfile then
    match m.content with
    | some bs => scan_file cfg (utf8DecodeIgnore bs) (package_name ++ "/" ++ m.name)
    | none => []
  else []

/-- `LeakScanner.scan_tar`: decode the blob with `tarfile` in mode `r:` and
scan every regular member as text. -/
def scan_tar (lib : ArchiveLib) (cfg : ScannerConfig) (file_content : Bytes)
    (package_name : String) : Except ScanErr (List Finding) :=
  (lib.tarDecode file_content).map
    (fun members => (members.map (scanTarMember cfg package_name)).flatten)

/-- `LeakScanner.scan_tar_gz`: same as `scan_tar` with a gzip layer
(`tarfile` mode `r:gz`). -/
def scan_tar_gz (lib : ArchiveLib) (cfg : ScannerConfig) (file_content : Bytes)
    (package_name : String) : Except ScanErr (List Finding) :=
  (lib.tarGzDecode file_content).map
    (fun members => (members.map (scanTarMember cfg package_name)).flatten)

/-- `LeakScanner.scan_tar_zst`: zstd stream decompression around a tar
reader (`tarfile` mode `r|`). -/
def scan_tar_zst (lib : ArchiveLib) (cfg : ScannerConfig) (file_content : Bytes)
    (package_name : String) : Except ScanErr (List Finding) :=
  (lib.tarZstDecode file_content).map
    (fun members => (members.map (scanTarMember cfg package_name)).flatten)

/-- `LeakScanner.scan_gz`: one decompressed stream scanned as a single unit
under the original name. -/
def scan_gz (lib : ArchiveLib) (cfg : ScannerConfig) (file_content : Bytes)
    (file_name : String) : Except ScanErr (List Finding) :=
  (lib.gzDecode file_content).map
    (fun bs => scan_file cfg (utf8DecodeIgnore bs) file_name)

/-- `LeakScanner.scan_zst`: one zstd-decompressed buffer scanned as a single
unit under the original name. -/
def scan_zst (lib : ArchiveLib) (cfg : ScannerConfig) (file_content : Bytes)
    (file_name : String) : Except ScanErr (List Finding) :=
  (lib.zstDecode file_content).map
    (fun bs => scan_file cfg (utf8DecodeIgnore bs) file_name)

/-- `LeakScanner.scan_zip`: every central-directory entry is read,
UTF-8-decoded (errors ignored) and scanned as text under
`package_name/member.filename`. -/
def scan_zip (lib : ArchiveLib) (cfg : ScannerConfig) (file_content : Bytes)
    (package_name : String) : Except ScanErr (List Finding) :=
  (lib.zipDecode file_content).map
    (fun members =>
      (members.map (fun m =>
        scan_file cfg (utf8DecodeIgnore m.content)
          (package_name ++ "/" ++ m.filename))).flatten)

/-- `LeakScanner.scan_deb`, with its temporary-file effect made explicit.
The source writes the blob to a `NamedTemporaryFile(delete=False)`, calls
`subprocess.run(["dpkg-deb", "-x", tmp, "/tmp/package"])` with no `check=True`
and no try/finally, walks `/tmp/package` scanning every regular file in text
mode, and only then calls `os.remove`.  The returned boolean records whether
`os.remove(tmp_file_path)` was reached: when `subprocess.run` raises because
the tool is missing, the exception propagates before the removal. -/
def scan_deb_with_cleanup (cfg : ScannerConfig) (outcome : ExtractOutcome)
    (package_name : String) : Except ScanErr (List Finding) × Bool :=
  match outcome with
  | ExtractOutcome.raisesMissing => (Except.error ScanErr.externalToolMissing, false)
  | ExtractOutcome.completes _ extracted =>
    (Except.ok ((extracted.map (fun fe =>
        scan_file cfg fe.2.toList (package_name ++ "/" ++ fe.1))).flatten),
     true)

/-- `LeakScanner.scan_deb` as seen by the dispatch table (findings or a
propagating exception). -/
def scan_deb (lib : ArchiveLib) (cfg : ScannerConfig) (file_content : Bytes)
    (package_name : String) : Except ScanErr (List Finding) :=
  (scan_deb_with_cleanup cfg (lib.dpkgDebRun file_content) package_name).1

/-- `LeakScanner.scan_rpm`, with the same temporary-file bookkeeping as
`scan_deb_with_cleanup` (rpm2cpio/cpio instead of dpkg-deb). -/
def scan_rpm_with_cleanup (cfg : ScannerConfig) (outcome : ExtractOutcome)
    (package_name : String) : Except ScanErr (List Finding) × Bool :=
  match outcome with
  | ExtractOutcome.raisesMissing => (Except.error ScanErr.externalToolMissing, false)
  | ExtractOutcome.completes _ extracted =>
    (Except.ok ((extracted.map (fun fe =>
        scan_file cfg fe.2.toList (package_name ++ "/" ++ fe.1))).flatten),
     true)

/-- `LeakScanner.scan_rpm` as seen by the dispatch table. -/
def scan_rpm (lib : ArchiveLib) (cfg : ScannerConfig) (file_content : Bytes)
    (package_name : String) : Except ScanErr (List Finding) :=
  (scan_rpm_with_cleanup cfg (lib.rpmToolsRun file_content) package_name).1

/-- Model of Python `path.endswith(ext)`. -/
def pathEndsWith (path ext : String) : Bool :=
  ext.toList.isSuffixOf path.toList

/-- The `extension_to_scan_function` dict of `LeakScanner.__init__`, in its
insertion (and hence iteration) order. -/
def extension_to_scan_function (lib : ArchiveLib) (cfg : ScannerConfig) :
    List (String × (Bytes → String → Except ScanErr (List Finding))) :=
  [(".tar", scan_tar lib cfg),
   (".tar.gz", scan_tar_gz lib cfg),
   (".tgz", scan_tar_gz lib cfg),
   (".gz", scan_gz lib cfg),
   (".tar.zst", scan_tar_zst lib cfg),
   (".zst", scan_zst lib cfg),
   (".zip", scan_zip lib cfg),
   (".deb", scan_deb lib cfg),
   (".rpm", scan_rpm lib cfg)]

/-- Extension dispatch: the first table entry whose extension is a suffix of
the blob identifier wins; no match means the blob is plain text. -/
def findScanFunction (lib : ArchiveLib) (cfg : ScannerConfig) (path : String) :
    Option (Bytes → String → Except ScanErr (List Finding)) :=
  ((extension_to_scan_function lib cfg).find?
    (fun p => pathEndsWith path p.1)).map (fun p => p.2)

/-- One local file: its path and the outcome of reading its bytes. -/
structure LocalFile where
  path : String
  read : Except ScanErr Bytes

/-- Effect of the `try/except Exception` handler of `scan_local_file` on
the result of the dispatched scan call: on success the matches are kept, on
an exception the handler prints the error and the function returns the
matches accumulated so far, which are none. -/
def catchScanErrors : Except ScanErr (List Finding) → List Finding
  | Except.ok ms => ms
  | Except.error _ => []

/-- `LeakScanner.scan_local_file`: dispatch by extension, or scan as plain
text; the whole body is wrapped in `try/except Exception`, so a read or
decode failure prints an error and yields the matches accumulated so far,
which are none. -/
def scan_local_file (lib : ArchiveLib) (cfg : ScannerConfig) (f : LocalFile) :
    List Finding :=
  match f.read with
  | Except.error _ => []
  | Except.ok file_content =>
    match findScanFunction lib cfg f.path with
    | some scanFn => catchScanErrors (scanFn file_content f.path)
    | none => scan_file cfg (utf8DecodeIgnore file_content) f.path

/-- `LeakScanner.scan_local_directory`: scan every regular file produced by
the recursive directory walk, in walk order. -/
def scan_local_directory (lib : ArchiveLib) (cfg : ScannerConfig)
    (files : List LocalFile) : List Finding :=
  (files.map (scan_local_file lib cfg)).flatten

/-- One command-line path argument, resolved against the filesystem: a
regular file, a directory (with the files its recursive walk yields), or an
invalid path (printed and skipped). -/
inductive PathEntry where
  | file (f : LocalFile)
  | directory (files : List LocalFile)
  | invalid (path : String)

/-- `LeakScanner.scan_paths`: concatenate the findings of every path
argument in order. -/
def scan_paths (lib : ArchiveLib) (cfg : ScannerConfig)
    (entries : List PathEntry) : List Finding :=
  (entries.map (fun e =>
    match e with
    | PathEntry.file f => scan_local_file lib cfg f
    | PathEntry.directory files => scan_local_directory lib cfg files
    | PathEntry.invalid _ => [])).flatten

/-- One enumerated S3 object: its key and the outcome of
`get_object(...)["Body"].read()`. -/
structure S3Object where
  key : String
  getResult : Except ScanErr Bytes

/-- Body of the per-object loop of `LeakScanner.scan_s3_bucket`.  Unlike the
local path there is no try/except here: a failed read or a decoder
exception propagates. -/
def processS3Object (lib : ArchiveLib) (cfg : ScannerConfig) (obj : S3Object) :
    Except ScanErr (List Finding) :=
  match obj.getResult with
  | Except.error e => Except.error e
  | Except.ok file_content =>
    match findScanFunction lib cfg obj.key with
    | some scanFn => scanFn file_content obj.key
    | none => Except.ok (scan_file cfg (utf8DecodeIgnore file_content) obj.key)

/-- The S3 scan loop with its `self.matches` accumulator threaded
explicitly; the first uncaught exception aborts the whole loop. -/
def scan_s3_bucket_loop (lib : ArchiveLib) (cfg : ScannerConfig)
    (acc : List Finding) : List S3Object → Except ScanErr (List Finding)
  | [] => Except.ok acc
  | obj :: rest =>
    match processS3Object lib cfg obj with
    | Except.ok ms => scan_s3_bucket_loop lib cfg (acc ++ ms) rest
    | Except.error e => Except.error e

/-- `LeakScanner.scan_s3_bucket` over the concatenated pages of the
paginated listing, starting from an empty `self.matches`. -/
def scan_s3_bucket (lib : ArchiveLib) (cfg : ScannerConfig)
    (objects : List S3Object) : Except ScanErr (List Finding) :=
  scan_s3_bucket_loop lib cfg [] objects

/-- Exit-code computation of the `__main__` block: `exit(1)` when the
aggregated match list is non-empty, `exit(0)` otherwise. -/
def exit_code (ms : List Finding) : Nat :=
  if ms.isEmpty then 0 else 1

/-- One `files`-mode process run: a fresh scanner, `scan_env_vars` on the
process environment populating the initially empty `sensitive_strings`,
then `scan_paths`. -/
def run_files (lib : ArchiveLib) (kws : List (List Char))
    (env_secrets_only : Bool) (env : List (String × String))
    (entries : List PathEntry) : List Finding :=
  scan_paths lib ⟨env_secrets_only, kws, scan_env_vars kws env⟩ entries

/-- Exit code of a `files`-mode process run (this mode always reaches the
final result output, every per-blob error being caught). -/
def run_files_exit (lib : ArchiveLib) (kws : List (List Char))
    (env_secrets_only : Bool) (env : List (String × String))
    (entries : List PathEntry) : Nat :=
  exit_code (run_files lib kws env_secrets_only env entries)

/-- One `s3`-mode process run: a fresh scanner, `scan_env_vars`, then
`scan_s3_bucket`; an uncaught per-object exception aborts the run. -/
def run_s3 (lib : ArchiveLib) (kws : List (List Char))
    (env_secrets_only : Bool) (env : List (String × String))
    (objects : List S3Object) : Except ScanErr (List Finding) :=
  scan_s3_bucket lib ⟨env_secrets_only, kws, scan_env_vars kws env⟩ objects

/-- Exit code of an `s3`-mode process run: `some code` when the run
completes and reaches the result output, `none` when it is aborted by an
uncaught exception. -/
def run_s3_exit (lib : ArchiveLib) (kws : List (List Char))
    (env_secrets_only : Bool) (env : List (String × String))
    (objects : List S3Object) : Option Nat :=
  match run_s3 lib kws env_secrets_only env objects with
  | Except.ok ms => some (exit_code ms)
  | Except.error _ => none

/-- Modelled from the spec: the behaviour asserted by the recursive-decode
sentences of sections 2 and 4.3 ("recursively re-entering the dispatch
logic for nested archives"), which is absent from the source.  Each
extracted tar member whose name ends in a known archive suffix is itself
decoded through the extension dispatch (one level shown here); only
suffix-free members are scanned as raw text. -/
def scan_tar_redispatch (lib : ArchiveLib) (cfg : ScannerConfig)
    (file_content : Bytes) (package_name : String) :
    Except ScanErr (List Finding) :=
  match lib.tarDecode file_content with
  | Except.error e => Except.error e
  | Except.ok members =>
    (members.mapM (fun (m : TarMember) =>
      if m.isfile then
        match m.content with
        | some bs =>
          match findScanFunction lib cfg m.name with
          | some scanFn => scanFn bs (package_name ++ "/" ++ m.name)
          | none =>
            Except.ok (scan_file cfg (utf8DecodeIgnore bs)
              (package_name ++ "/" ++ m.name))
        | none => Except.ok []
      else Except.ok [])).map List.flatten

/-- The language of the regex literal `[A-Z_]*(kw1|...|kwn)[A-Z_]*`: an
optional run of uppercase letters and underscores, one keyword, another
optional run. -/
def patternLanguage (kws : List (List Char)) (s : List Char) : Prop :=
  ∃ u k v, k ∈ kws ∧ s = u ++ k ++ v ∧
    u.all isUpperOrUnderscore = true ∧ v.all isUpperOrUnderscore = true

/-- Decidable full-string acceptor for the same regex literal, by choosing
the split point of the leading run. -/
def acceptsFull (kws : List (List Char)) (s : List Char) : Bool :=
  (List.range (s.length + 1)).any (fun i =>
    (s.take i).all isUpperOrUnderscore &&
    kws.any (fun k =>
      k.isPrefixOf (s.drop i) &&
      ((s.drop i).drop k.length).all isUpperOrUnderscore))

/-- Toy instantiation of the external decoders in which every archive is
malformed and both external tools are missing from PATH. -/
def errLib : ArchiveLib where
  tarDecode := fun _ => Except.error ScanErr.decodeError
  tarGzDecode := fun _ => Except.error ScanErr.decodeError
  tarZstDecode := fun _ => Except.error ScanErr.decodeError
  gzDecode := fun _ => Except.error ScanErr.decodeError
  zstDecode := fun _ => Except.error ScanErr.decodeError
  zipDecode := fun _ => Except.error ScanErr.decodeError
  dpkgDebRun := fun _ => ExtractOutcome.raisesMissing
  rpmToolsRun := fun _ => ExtractOutcome.raisesMissing

/-- Default scanner configuration: non-env-only mode, the four-keyword
pattern, no harvested sensitive strings. -/
def cfgPlain : ScannerConfig := ⟨false, leaked_string_keywords, []⟩

/-- Toy decoder library for the round-trip scenario: the tar decoder yields
one regular file `config.txt` with content `MY_SECRET_TOKEN=hello\n`. -/
def tarLibRoundTrip : ArchiveLib :=
  { errLib with
    tarDecode := fun _ =>
      Except.ok [⟨"config.txt", true, some (strBytes "MY_SECRET_TOKEN=hello\n")⟩] }

/-- Toy decoder library for the nested-archive scenario: the tar decoder
yields one member `inner.zip` whose bytes, decoded as a zip archive, hold a
file `app.conf` with content `MY_PASSWORD=xyz`; the raw bytes of
`inner.zip` read as the text `PASSWORD=xyz`. -/
def tarLibNested : ArchiveLib :=
  { errLib with
    tarDecode := fun _ =>
      Except.ok [⟨"inner.zip", true, some (strBytes "PASSWORD=xyz")⟩],
    zipDecode := fun _ =>
      Except.ok [⟨"app.conf", strBytes "MY_PASSWORD=xyz"⟩] }

/-- Configuration whose harvested sensitive string is itself of the form
four characters followed by the ellipsis marker. -/
def cfgSelfPreview : ScannerConfig :=
  ⟨false, leaked_string_keywords, ["ABCD...".toList]⟩

theorem tryKeywords_eq_some {kws : List (List Char)} {t : List Char} {klen : Nat}
    (h : tryKeywords kws t = some klen) :
    ∃ k, k ∈ kws ∧ k.isPrefixOf t = true ∧ klen = k.length := by
  induction kws with
  | nil => simp [tryKeywords] at h
  | cons k1 rest ih =>
    by_cases hp : k1.isPrefixOf t = true
    · simp [tryKeywords, hp] at h
      exact ⟨k1, List.mem_cons_self _ _, hp, h.symm⟩
    · simp [tryKeywords, hp] at h
      obtain ⟨k, hk, hkp, hl⟩ := ih h
      exact ⟨k, List.mem_cons_of_mem _ hk, hkp, hl⟩

theorem tryKeywords_ne_none {kws : List (List Char)} {t k : List Char}
    (hm : k ∈ kws) (hp : k.isPrefixOf t = true) : tryKeywords kws t ≠ none := by
  induction kws with
  | nil => cases hm
  | cons k1 rest ih =>
    by_cases h1 : k1.isPrefixOf t = true
    · simp [tryKeywords, h1]
    · rcases List.mem_cons.mp hm with he | hmem
      · subst he; exact absurd hp h1
      · simp [tryKeywords, h1]
        exact ih hmem

theorem matchFromAux_zero (kws : List (List Char)) (s : List Char) :
    matchFromAux kws s 0 = tryAtOffset kws s 0 := rfl

theorem matchFromAux_succ (kws : List (List Char)) (s : List Char) (e : Nat) :
    matchFromAux kws s (e + 1) =
      match tryAtOffset kws s (e + 1) with
      | some len => some len
      | none => matchFromAux kws s e := rfl

theorem matchFromAux_eq_of_try {kws : List (List Char)} {s : List Char}
    {d klen : Nat} (ht : tryKeywords kws (s.drop d) = some klen) :
    matchFromAux kws s d = some (d + klen + runLen (s.drop (d + klen))) := by
  cases d with
  | zero =>
    have ht0 : tryKeywords kws s = some klen := ht
    rw [matchFromAux_zero]
    simp [tryAtOffset, ht0]
  | succ e => rw [matchFromAux_succ]; simp [tryAtOffset, ht]

theorem matchFromAux_zero_none {kws : List (List Char)} {s : List Char}
    (ht : tryKeywords kws s = none) : matchFromAux kws s 0 = none := by
  rw [matchFromAux_zero]
  simp [tryAtOffset]
  exact ht

theorem matchFromAux_succ_none {kws : List (List Char)} {s : List Char} {e : Nat}
    (ht : tryKeywords kws (s.drop (e + 1)) = none) :
    matchFromAux kws s (e + 1) = matchFromAux kws s e := by
  rw [matchFromAux_succ]
  simp [tryAtOffset, ht]

theorem matchFromAux_isSome_of {kws : List (List Char)} {s : List Char}
    (h : tryKeywords kws s ≠ none) : ∀ d, (matchFromAux kws s d).isSome = true := by
  intro d
  induction d with
  | zero =>
    cases ht : tryKeywords kws s with
    | none => exact absurd ht h
    | some klen => rw [matchFromAux_eq_of_try (d := 0) ht]; rfl
  | succ e ih =>
    cases ht : tryKeywords kws (s.drop (e + 1)) with
    | none => rw [matchFromAux_succ_none ht]; exact ih
    | some klen => rw [matchFromAux_eq_of_try ht]; rfl

theorem matchFromAux_some_occ {kws : List (List Char)} {s : List Char} :
    ∀ {d len : Nat}, matchFromAux kws s d = some len →
      ∃ i, i ≤ d ∧ ∃ k, k ∈ kws ∧ k.isPrefixOf (s.drop i) = true := by
  intro d
  induction d with
  | zero =>
    intro len h
    cases ht : tryKeywords kws s with
    | none => rw [matchFromAux_zero_none ht] at h; cases h
    | some klen =>
      obtain ⟨k, hk, hp, _⟩ := tryKeywords_eq_some ht
      exact ⟨0, Nat.le_refl 0, k, hk, hp⟩
  | succ e ih =>
    intro len h
    cases ht : tryKeywords kws (s.drop (e + 1)) with
    | none =>
      rw [matchFromAux_succ_none ht] at h
      obtain ⟨i, hi, hk⟩ := ih h
      exact ⟨i, Nat.le_succ_of_le hi, hk⟩
    | some klen =>
      obtain ⟨k, hk, hp, _⟩ := tryKeywords_eq_some ht
      exact ⟨e + 1, Nat.le_refl _, k, hk, hp⟩

theorem runLen_le_length (s : List Char) : runLen s ≤ s.length := by
  induction s with
  | nil => simp [runLen]
  | cons c t ih =>
    by_cases h : isUpperOrUnderscore c = true
    · simp [runLen, h]; omega
    · simp [runLen, h]

theorem take_all_of_le_runLen :
    ∀ (s : List Char) (i : Nat), i ≤ runLen s →
      (s.take i).all isUpperOrUnderscore = true := by
  intro s
  induction s with
  | nil =>
    intro i hi
    simp [runLen] at hi
    simp [hi]
  | cons c t ih =>
    intro i hi
    cases i with
    | zero => simp
    | succ j =>
      by_cases h : isUpperOrUnderscore c = true
      · simp only [runLen, h, if_true] at hi
        simp [h, ih j (Nat.le_of_succ_le_succ hi)]
      · simp [runLen, h] at hi

theorem matchAt_isSome_of_prefix {kws : List (List Char)} {s k : List Char}
    (hk : k ∈ kws) (hp : k.isPrefixOf s = true) :
    (matchAt kws s).isSome = true :=
  matchFromAux_isSome_of (tryKeywords_ne_none hk hp) (runLen s)

theorem matchAt_eq_none_of_dirty {kws : List (List Char)} {s : List Char}
    (H : ∀ i, i ≤ s.length → ∀ k, k ∈ kws → k.isPrefixOf (s.drop i) = true →
      (s.take i).all isUpperOrUnderscore = false) :
    matchAt kws s = none := by
  cases h : matchAt kws s with
  | none => rfl
  | some len =>
    obtain ⟨i, hi, k, hk, hp⟩ :=
      matchFromAux_some_occ (show matchFromAux kws s (runLen s) = some len from h)
    have h1 : (s.take i).all isUpperOrUnderscore = true :=
      take_all_of_le_runLen s i hi
    have h2 := H i (Nat.le_trans hi (runLen_le_length s)) k hk hp
    rw [h1] at h2
    cases h2

theorem isPrefixOf_nil_eq_false {k : List Char} (hk : k ≠ []) :
    k.isPrefixOf ([] : List Char) = false := by
  cases k with
  | nil => exact absurd rfl hk
  | cons a t => rfl

theorem finditerAux_cons (kws : List (List Char)) (fuel : Nat)
    (c : Char) (t : List Char) :
    finditerAux kws (fuel + 1) (c :: t) =
      match matchAt kws (c :: t) with
      | some len => (c :: t).take len :: finditerAux kws fuel ((c :: t).drop len)
      | none => finditerAux kws fuel t := rfl

theorem finditerAux_cons_some {kws : List (List Char)} {fuel : Nat}
    {c : Char} {t : List Char} {len : Nat}
    (hm : matchAt kws (c :: t) = some len) :
    finditerAux kws (fuel + 1) (c :: t) =
      (c :: t).take len :: finditerAux kws fuel ((c :: t).drop len) := by
  rw [finditerAux_cons, hm]

theorem finditerAux_cons_none {kws : List (List Char)} {fuel : Nat}
    {c : Char} {t : List Char} (hm : matchAt kws (c :: t) = none) :
    finditerAux kws (fuel + 1) (c :: t) = finditerAux kws fuel t := by
  rw [finditerAux_cons, hm]

theorem finditerAux_ne_nil {kws : List (List Char)} :
    ∀ (fuel : Nat) (s : List Char), s.length ≤ fuel →
      (∃ i k, k ∈ kws ∧ k ≠ [] ∧ k.isPrefixOf (s.drop i) = true) →
      finditerAux kws fuel s ≠ [] := by
  intro fuel
  induction fuel with
  | zero =>
    intro s hlen hex
    obtain ⟨i, k, hk, hne, hp⟩ := hex
    have hs : s = [] := List.length_eq_zero.mp (Nat.le_zero.mp hlen)
    subst hs
    rw [List.drop_nil, isPrefixOf_nil_eq_false hne] at hp
    cases hp
  | succ fuel ih =>
    intro s hlen hex
    obtain ⟨i, k, hk, hne, hp⟩ := hex
    cases s with
    | nil =>
      rw [List.drop_nil, isPrefixOf_nil_eq_false hne] at hp
      cases hp
    | cons c t =>
      cases hm : matchAt kws (c :: t) with
      | some len => rw [finditerAux_cons_some hm]; simp
      | none =>
        rw [finditerAux_cons_none hm]
        cases i with
        | zero =>
          have hp0 : k.isPrefixOf (c :: t) = true := hp
          have hsome := matchAt_isSome_of_prefix hk hp0
          rw [hm] at hsome
          cases hsome
        | succ j =>
          exact ih t (Nat.le_of_succ_le_succ hlen) ⟨j, k, hk, hne, hp⟩

theorem finditer_ne_nil {kws : List (List Char)} {s : List Char}
    (hex : ∃ i k, k ∈ kws ∧ k ≠ [] ∧ k.isPrefixOf (s.drop i) = true) :
    finditer kws s ≠ [] :=
  finditerAux_ne_nil s.length s (Nat.le_refl _) hex

theorem mem_enumerateFrom {α : Type} (l : List α) :
    ∀ (k i : Nat) (h : i < l.length),
      (k + i, l.get ⟨i, h⟩) ∈ enumerateFrom k l := by
  induction l with
  | nil => intro k i h; cases h
  | cons a t ih =>
    intro k i h
    cases i with
    | zero => exact List.mem_cons_self _ _
    | succ j =>
      have hj : j < t.length := Nat.lt_of_succ_lt_succ h
      have hmem := ih (k + 1) j hj
      have heq : k + (j + 1) = (k + 1) + j := by omega
      rw [heq]
      exact List.mem_cons_of_mem _ hmem

theorem scan_file_line_mem_sensitive {cfg : ScannerConfig} {file_name : String}
    {n : Nat} {line secret : List Char}
    (hs : secret ∈ cfg.sensitive_strings) (hin : substrIn secret line = true) :
    (⟨file_name, n, (secretPreview secret).asString⟩ : Finding) ∈
      scan_file_line cfg file_name n line := by
  unfold scan_file_line
  apply List.mem_append_right
  exact List.mem_map_of_mem _ (List.mem_filter.mpr ⟨hs, hin⟩)

theorem mem_scan_file_of_line {cfg : ScannerConfig} {file_name : String}
    {content : List Char} {i : Nat} (h : i < (splitlines content).length)
    {fin : Finding}
    (hmem : fin ∈ scan_file_line cfg file_name (1 + i)
      ((splitlines content).get ⟨i, h⟩)) :
    fin ∈ scan_file cfg content file_name := by
  unfold scan_file
  apply List.mem_flatten.mpr
  refine ⟨scan_file_line cfg file_name (1 + i)
    ((splitlines content).get ⟨i, h⟩), ?_, hmem⟩
  exact List.mem_map_of_mem _ (mem_enumerateFrom (splitlines content) 1 i h)

theorem substrIn_nil (l : List Char) : substrIn [] l = true := by
  cases l with
  | nil => rfl
  | cons c t => rfl

theorem splitlinesAux_nil (afterCR : Bool) (acc : List Char) :
    splitlinesAux afterCR acc [] =
      if acc.isEmpty then [] else [acc.reverse] := rfl

theorem splitlinesAux_cons (afterCR : Bool) (acc : List Char) (c : Char)
    (rest : List Char) :
    splitlinesAux afterCR acc (c :: rest) =
      if afterCR && (c == '\n') then splitlinesAux false acc rest
      else if c == '\r' then acc.reverse :: splitlinesAux true [] rest
      else if isLineBreak c then acc.reverse :: splitlinesAux false [] rest
      else splitlinesAux false (c :: acc) rest := rfl

theorem splitlinesAux_no_break :
    ∀ (l acc : List Char), l.all (fun c => !(isLineBreak c)) = true →
      (acc = [] → l ≠ []) →
      splitlinesAux false acc l = [acc.reverse ++ l] := by
  intro l
  induction l with
  | nil =>
    intro acc hall hne
    have hacc : acc ≠ [] := fun h => (hne h) rfl
    have hie : acc.isEmpty = false := by
      cases acc with
      | nil => exact absurd rfl hacc
      | cons a t => rfl
    rw [splitlinesAux_nil, hie]
    simp
  | cons c t ih =>
    intro acc hall hne
    rw [List.all_cons, Bool.and_eq_true] at hall
    obtain ⟨h1, hall2⟩ := hall
    have hc : isLineBreak c = false := by
      cases hcb : isLineBreak c with
      | false => rfl
      | true => rw [hcb] at h1; cases h1
    have hcr : (c == '\r') = false := by
      cases hcc : c == '\r' with
      | false => rfl
      | true =>
        have hce : c = '\r' := beq_iff_eq.mp hcc
        subst hce
        have hbr : isLineBreak '\r' = true := by decide
        rw [hbr] at hc
        cases hc
    rw [splitlinesAux_cons, Bool.false_and, if_neg (by simp),
      if_neg (by simp [hcr]), if_neg (by simp [hc]),
      ih (c :: acc) hall2 (fun h => by cases h)]
    simp

theorem splitlines_single {l : List Char} (hne : l ≠ [])
    (hall : l.all (fun c => !(isLineBreak c)) = true) :
    splitlines l = [l] := by
  have := splitlinesAux_no_break l [] hall (fun _ => hne)
  simpa [splitlines] using this

theorem scan_paths_append (lib : ArchiveLib) (cfg : ScannerConfig)
    (a b : List PathEntry) :
    scan_paths lib cfg (a ++ b) = scan_paths lib cfg a ++ scan_paths lib cfg b := by
  unfold scan_paths
  rw [List.map_append, List.flatten_append]

theorem scan_local_file_ok (lib : ArchiveLib) (cfg : ScannerConfig)
    (path : String) (bs : Bytes) :
    scan_local_file lib cfg ⟨path, Except.ok bs⟩ =
      match findScanFunction lib cfg path with
      | some scanFn => catchScanErrors (scanFn bs path)
      | none => scan_file cfg (utf8DecodeIgnore bs) path := rfl

theorem scan_local_file_dispatch_error {lib : ArchiveLib} {cfg : ScannerConfig}
    {path : String} {bs : Bytes}
    {scanFn : Bytes → String → Except ScanErr (List Finding)} {e : ScanErr}
    (hf : findScanFunction lib cfg path = some scanFn)
    (he : scanFn bs path = Except.error e) :
    scan_local_file lib cfg ⟨path, Except.ok bs⟩ = [] := by
  rw [scan_local_file_ok, hf]
  show catchScanErrors (scanFn bs path) = []
  rw [he]
  rfl

theorem scan_paths_cons_file (lib : ArchiveLib) (cfg : ScannerConfig)
    (f : LocalFile) (rest : List PathEntry) :
    scan_paths lib cfg (PathEntry.file f :: rest) =
      scan_local_file lib cfg f ++ scan_paths lib cfg rest := rfl

theorem scan_s3_bucket_loop_cons (lib : ArchiveLib) (cfg : ScannerConfig)
    (acc : List Finding) (obj : S3Object) (rest : List S3Object) :
    scan_s3_bucket_loop lib cfg acc (obj :: rest) =
      match processS3Object lib cfg obj with
      | Except.ok ms => scan_s3_bucket_loop lib cfg (acc ++ ms) rest
      | Except.error e => Except.error e := rfl

/-- C1: for every completed run, in both the S3 mode and the local
files/directories mode, the exit code is 1 exactly when the aggregated
finding list is non-empty and 0 exactly when it is empty; in the local mode
a per-blob read error or decoder error contributes no findings, so removing
the erroring blob leaves the aggregated list (and hence the exit code)
unchanged.  An S3-mode run reaches the result output only when no per-blob
error occurred, and then its exit code is determined by the aggregated
list alone. -/
theorem c1_exit_code_contract :
    (∀ ms : List Finding,
      (exit_code ms = 1 ↔ ms ≠ []) ∧ (exit_code ms = 0 ↔ ms = [])) ∧
    (∀ lib kws b env entries,
      run_files_exit lib kws b env entries =
        exit_code (run_files lib kws b env entries)) ∧
    (∀ lib kws b env objs ms, run_s3 lib kws b env objs = Except.ok ms →
      run_s3_exit lib kws b env objs = some (exit_code ms)) ∧
    (∀ lib cfg pre post (path : String) (er : ScanErr),
      scan_paths lib cfg (pre ++ PathEntry.file ⟨path, Except.error er⟩ :: post) =
        scan_paths lib cfg (pre ++ post)) ∧
    (∀ lib cfg pre post (path : String) (bs : Bytes) scanFn (e : ScanErr),
      findScanFunction lib cfg path = some scanFn →
      scanFn bs path = Except.error e →
      scan_paths lib cfg (pre ++ PathEntry.file ⟨path, Except.ok bs⟩ :: post) =
        scan_paths lib cfg (pre ++ post)) := by
  refine ⟨?_, ?_, ?_, ?_, ?_⟩
  · intro ms
    cases ms with
    | nil => simp [exit_code]
    | cons a t => simp [exit_code]
  · intro lib kws b env entries
    rfl
  · intro lib kws b env objs ms h
    unfold run_s3_exit
    rw [h]
  · intro lib cfg pre post path er
    have hx : scan_local_file lib cfg ⟨path, Except.error er⟩ = [] := rfl
    rw [show pre ++ PathEntry.file ⟨path, Except.error er⟩ :: post =
      (pre ++ [PathEntry.file ⟨path, Except.error er⟩]) ++ post by simp,
      scan_paths_append, scan_paths_append]
    simp [scan_paths, hx]
  · intro lib cfg pre post path bs scanFn e hf he
    have hx : scan_local_file lib cfg ⟨path, Except.ok bs⟩ = [] :=
      scan_local_file_dispatch_error hf he
    rw [show pre ++ PathEntry.file ⟨path, Except.ok bs⟩ :: post =
      (pre ++ [PathEntry.file ⟨path, Except.ok bs⟩]) ++ post by simp,
      scan_paths_append, scan_paths_append]
    simp [scan_paths, hx]

/-- C1 witness: concrete instances of the exit-code contract.  The run over
one undecodable `.zip` blob completes with exit code 0 in the local mode,
and removing the erroring blob from a run does not change the aggregated
findings. -/
theorem c1_exit_code_contract_witness :
    (exit_code [] = 0 ↔ ([] : List Finding) = []) ∧
    run_s3_exit errLib leaked_string_keywords false []
      [⟨"good.txt", Except.ok (strBytes "MY_SECRET=1")⟩] =
      some (exit_code [⟨"good.txt", 1, "MY_SECRET"⟩]) ∧
    scan_paths errLib cfgPlain
      ([PathEntry.file ⟨"good.txt", Except.ok (strBytes "MY_SECRET=1")⟩] ++
        PathEntry.file ⟨"bad.zip", Except.ok (strBytes "notazip")⟩ :: []) =
      scan_paths errLib cfgPlain
        ([PathEntry.file ⟨"good.txt", Except.ok (strBytes "MY_SECRET=1")⟩] ++ []) :=
  ⟨(c1_exit_code_contract.1 []).2,
   c1_exit_code_contract.2.2.1 errLib leaked_string_keywords false []
     [⟨"good.txt", Except.ok (strBytes "MY_SECRET=1")⟩]
     [⟨"good.txt", 1, "MY_SECRET"⟩] rfl,
   c1_exit_code_contract.2.2.2.2 errLib cfgPlain
     [PathEntry.file ⟨"good.txt", Except.ok (strBytes "MY_SECRET=1")⟩] []
     "bad.zip" (strBytes "notazip") (scan_zip errLib cfgPlain)
     ScanErr.decodeError rfl rfl⟩

/-- C2 counterexample: with a corrupted `.zip` blob followed by a plain
text blob holding a leak, the S3 scan path does not skip the bad blob and
continue — the decoder exception propagates and aborts the whole loop, so
the run never reports the finding of the second blob; the local-file path,
scanning the same two blobs, does skip the bad blob and reports exactly the
finding of the second.  This refutes the claim that the continue-on-error
behaviour holds in both paths. -/
theorem c2_s3_decode_error_aborts_counterexample :
    scan_s3_bucket errLib cfgPlain
      [⟨"bad.zip", Except.ok (strBytes "notazip")⟩,
       ⟨"good.txt", Except.ok (strBytes "MY_SECRET=1")⟩] =
      Except.error ScanErr.decodeError ∧
    scan_paths errLib cfgPlain
      [PathEntry.file ⟨"bad.zip", Except.ok (strBytes "notazip")⟩,
       PathEntry.file ⟨"good.txt", Except.ok (strBytes "MY_SECRET=1")⟩] =
      [⟨"good.txt", 1, "MY_SECRET"⟩] :=
  ⟨rfl, rfl⟩

/-- C2 (amended): a decoder failure on a corrupted archive blob is caught
only in the local-file path, where the blob contributes no findings and the
scan continues with the remaining entries; in the object-storage path the
decoder exception is not caught and aborts the run at the failing object. -/
theorem c2_decode_error_local_skips_s3_aborts :
    (∀ lib cfg (path : String) (bs : Bytes) scanFn (e : ScanErr),
      findScanFunction lib cfg path = some scanFn →
      scanFn bs path = Except.error e →
      scan_local_file lib cfg ⟨path, Except.ok bs⟩ = []) ∧
    (∀ lib cfg f rest,
      scan_paths lib cfg (PathEntry.file f :: rest) =
        scan_local_file lib cfg f ++ scan_paths lib cfg rest) ∧
    (∀ lib cfg obj rest (e : ScanErr),
      processS3Object lib cfg obj = Except.error e →
      scan_s3_bucket lib cfg (obj :: rest) = Except.error e) := by
  refine ⟨?_, ?_, ?_⟩
  · intro lib cfg path bs scanFn e hf he
    exact scan_local_file_dispatch_error hf he
  · intro lib cfg f rest
    exact scan_paths_cons_file lib cfg f rest
  · intro lib cfg obj rest e hp
    unfold scan_s3_bucket
    rw [scan_s3_bucket_loop_cons, hp]

/-- C2 witness: the corrupted-zip blob yields no findings in the local
path, path entries keep being processed in order, and the same blob aborts
the S3 loop. -/
theorem c2_decode_error_witness :
    scan_local_file errLib cfgPlain ⟨"bad.zip", Except.ok (strBytes "notazip")⟩ = [] ∧
    scan_paths errLib cfgPlain
      (PathEntry.file ⟨"bad.zip", Except.ok (strBytes "notazip")⟩ ::
        [PathEntry.file ⟨"good.txt", Except.ok (strBytes "MY_SECRET=1")⟩]) =
      scan_local_file errLib cfgPlain ⟨"bad.zip", Except.ok (strBytes "notazip")⟩ ++
        scan_paths errLib cfgPlain
          [PathEntry.file ⟨"good.txt", Except.ok (strBytes "MY_SECRET=1")⟩] ∧
    scan_s3_bucket errLib cfgPlain
      [⟨"bad.zip", Except.ok (strBytes "notazip")⟩] =
      Except.error ScanErr.decodeError :=
  ⟨c2_decode_error_local_skips_s3_aborts.1 errLib cfgPlain "bad.zip"
     (strBytes "notazip") (scan_zip errLib cfgPlain) ScanErr.decodeError rfl rfl,
   c2_decode_error_local_skips_s3_aborts.2.1 errLib cfgPlain
     ⟨"bad.zip", Except.ok (strBytes "notazip")⟩
     [PathEntry.file ⟨"good.txt", Except.ok (strBytes "MY_SECRET=1")⟩],
   c2_decode_error_local_skips_s3_aborts.2.2 errLib cfgPlain
     ⟨"bad.zip", Except.ok (strBytes "notazip")⟩ [] ScanErr.decodeError rfl⟩

/-- C3 counterexample: a tar member named `inner.zip` is not decoded as an
archive — `scan_tar` scans its raw bytes as text under the path
`archive.tar/inner.zip`, whereas the re-dispatching behaviour asserted by
the claim (modelled by `scan_tar_redispatch`) would decode the member and
scan `archive.tar/inner.zip/app.conf`; the two results differ. -/
theorem c3_no_redispatch_counterexample :
    scan_tar tarLibNested cfgPlain (strBytes "TARDATA") "archive.tar" =
      Except.ok [⟨"archive.tar/inner.zip", 1, "PASSWORD"⟩] ∧
    scan_tar_redispatch tarLibNested cfgPlain (strBytes "TARDATA") "archive.tar" =
      Except.ok [⟨"archive.tar/inner.zip/app.conf", 1, "MY_PASSWORD"⟩] ∧
    scan_tar tarLibNested cfgPlain (strBytes "TARDATA") "archive.tar" ≠
      scan_tar_redispatch tarLibNested cfgPlain (strBytes "TARDATA") "archive.tar" := by
  have h1 : scan_tar tarLibNested cfgPlain (strBytes "TARDATA") "archive.tar" =
      Except.ok [⟨"archive.tar/inner.zip", 1, "PASSWORD"⟩] := rfl
  have h2 : scan_tar_redispatch tarLibNested cfgPlain (strBytes "TARDATA")
      "archive.tar" =
      Except.ok [⟨"archive.tar/inner.zip/app.conf", 1, "MY_PASSWORD"⟩] := rfl
  refine ⟨h1, h2, ?_⟩
  rw [h1, h2]
  intro h
  injection h with h3
  exact absurd h3 (by decide)

/-- C3 (amended): no container decoder re-enters the extension dispatch.
Whatever archive decodes to a member list, every regular member — whatever
suffix its name carries — has its raw bytes UTF-8-decoded (errors ignored)
and scanned as plain text under the accumulated logical path; this is the
whole output of the tar, tar.gz/tgz, tar.zst and zip decoders. -/
theorem c3_members_scanned_as_raw_text (lib : ArchiveLib) (cfg : ScannerConfig)
    (bs : Bytes) (pkg : String) :
    (∀ members, lib.tarDecode bs = Except.ok members →
      scan_tar lib cfg bs pkg =
        Except.ok ((members.map (scanTarMember cfg pkg)).flatten)) ∧
    (∀ members, lib.tarGzDecode bs = Except.ok members →
      scan_tar_gz lib cfg bs pkg =
        Except.ok ((members.map (scanTarMember cfg pkg)).flatten)) ∧
    (∀ members, lib.tarZstDecode bs = Except.ok members →
      scan_tar_zst lib cfg bs pkg =
        Except.ok ((members.map (scanTarMember cfg pkg)).flatten)) ∧
    (∀ zmembers, lib.zipDecode bs = Except.ok zmembers →
      scan_zip lib cfg bs pkg =
        Except.ok ((zmembers.map (fun m =>
          scan_file cfg (utf8DecodeIgnore m.content)
            (pkg ++ "/" ++ m.filename))).flatten)) := by
  refine ⟨?_, ?_, ?_, ?_⟩
  · intro members h; unfold scan_tar; rw [h]; rfl
  · intro members h; unfold scan_tar_gz; rw [h]; rfl
  · intro members h; unfold scan_tar_zst; rw [h]; rfl
  · intro zmembers h; unfold scan_zip; rw [h]; rfl

/-- C3 witness: the nested-archive decoder library instantiates the amended
statement: the raw-text scan of the `inner.zip` member is the whole tar
output. -/
theorem c3_members_scanned_as_raw_text_witness :
    scan_tar tarLibNested cfgPlain (strBytes "TARDATA") "archive.tar" =
      Except.ok (([⟨"inner.zip", true, some (strBytes "PASSWORD=xyz")⟩].map
        (scanTarMember cfgPlain "archive.tar")).flatten) :=
  (c3_members_scanned_as_raw_text tarLibNested cfgPlain
    (strBytes "TARDATA") "archive.tar").1
    [⟨"inner.zip", true, some (strBytes "PASSWORD=xyz")⟩] rfl

/-- C4 counterexample: when the harvested sensitive value is `ABCD...`, the
recorded Finding has matched text `ABCD...` — exactly the full secret
value, because the value coincides with its own truncated preview.  This
refutes the clause that the matched text is never the full secret value. -/
theorem c4_full_value_preview_counterexample :
    "ABCD...".toList ∈ cfgSelfPreview.sensitive_strings ∧
    scan_file cfgSelfPreview "x=ABCD...".toList "f.txt" =
      [⟨"f.txt", 1, "ABCD..."⟩] ∧
    secretPreview "ABCD...".toList = "ABCD...".toList := by
  refine ⟨by decide, by decide, by decide⟩

/-- C4 (amended): on every scanned line, every harvested sensitive string
that is a substring of the line is recorded as a Finding whatever the value
of the env-secrets-only flag, and its matched text is exactly the first 4
characters of the value followed by the ellipsis marker; this differs from
the full value except when the value is itself of that 4-plus-marker
form. -/
theorem c4_sensitive_truncated_preview :
    (∀ cfg (content : List Char) (file_name : String) (i : Nat)
      (h : i < (splitlines content).length) (secret : List Char),
      secret ∈ cfg.sensitive_strings →
      substrIn secret ((splitlines content).get ⟨i, h⟩) = true →
      (⟨file_name, 1 + i, (secretPreview secret).asString⟩ : Finding) ∈
        scan_file cfg content file_name) ∧
    (∀ secret : List Char, secret ≠ secretPreview secret →
      secretPreview secret ≠ secret) := by
  constructor
  · intro cfg content file_name i h secret hs hin
    exact mem_scan_file_of_line h (scan_file_line_mem_sensitive hs hin)
  · intro secret hne heq
    exact hne heq.symm

/-- C4 witness: in env-secrets-only mode, the harvested value `hunter2`
appearing in a scanned line is reported as `hunt...`. -/
theorem c4_sensitive_truncated_preview_witness :
    (⟨"w.txt", 1 + 0,
        (secretPreview "hunter2".toList).asString⟩ : Finding) ∈
      scan_file ⟨true, leaked_string_keywords, ["hunter2".toList]⟩
        "x=hunter2".toList "w.txt" ∧
    secretPreview "hunter2".toList ≠ "hunter2".toList :=
  ⟨c4_sensitive_truncated_preview.1
     ⟨true, leaked_string_keywords, ["hunter2".toList]⟩
     "x=hunter2".toList "w.txt" 0 (by decide) "hunter2".toList
     (by decide) (by decide),
   c4_sensitive_truncated_preview.2 "hunter2".toList (by decide)⟩

theorem acceptsFull_iff (kws : List (List Char)) (s : List Char) :
    acceptsFull kws s = true ↔ patternLanguage kws s := by
  unfold acceptsFull patternLanguage
  rw [List.any_eq_true]
  constructor
  · rintro ⟨i, hi, hcond⟩
    rw [Bool.and_eq_true] at hcond
    obtain ⟨htake, hkw⟩ := hcond
    rw [List.any_eq_true] at hkw
    obtain ⟨k, hk, hcond2⟩ := hkw
    rw [Bool.and_eq_true] at hcond2
    obtain ⟨hpref, hdropall⟩ := hcond2
    obtain ⟨r, hr⟩ := List.isPrefixOf_iff_prefix.mp hpref
    have h2 : (s.drop i).drop k.length = r := by
      rw [← hr, List.drop_left]
    rw [h2] at hdropall
    refine ⟨s.take i, k, r, hk, ?_, htake, hdropall⟩
    calc s = s.take i ++ s.drop i := (List.take_append_drop i s).symm
    _ = s.take i ++ (k ++ r) := by rw [hr]
    _ = s.take i ++ k ++ r := by rw [List.append_assoc]
  · rintro ⟨u, k, v, hk, hs, hu, hv⟩
    subst hs
    refine ⟨u.length, ?_, ?_⟩
    · rw [List.mem_range]
      simp [List.length_append]
      omega
    · rw [Bool.and_eq_true]
      have hassoc : u ++ k ++ v = u ++ (k ++ v) := List.append_assoc u k v
      constructor
      · rw [hassoc, List.take_left]
        exact hu
      · rw [List.any_eq_true]
        refine ⟨k, hk, ?_⟩
        rw [Bool.and_eq_true]
        constructor
        · rw [hassoc, List.drop_left]
          exact List.isPrefixOf_iff_prefix.mpr ⟨v, rfl⟩
        · rw [hassoc, List.drop_left, List.drop_left]
          exact hv

/-- C5 counterexample: the string `TOKEN` belongs to the language of the
superset pattern of scan_artifacts.py, but the compiled pattern of the
scan_s3_artifacts.py variant — whose alternation is only
SECRET|PASSWORD|ACCESS_KEY — rejects it, so not every scanner variant
accepts exactly the superset language. -/
theorem c5_s3_variant_rejects_counterexample :
    acceptsFull leaked_string_keywords_s3 "TOKEN".toList = false ∧
    acceptsFull leaked_string_keywords "TOKEN".toList = true ∧
    patternLanguage leaked_string_keywords "TOKEN".toList :=
  ⟨by decide, by decide,
   ⟨[], "TOKEN".toList, [], by decide, rfl, rfl, rfl⟩⟩

/-- C5 (amended): each variant accepts exactly the language built from its
own keyword set — optional `[A-Z_]` run, one keyword, optional `[A-Z_]`
run — with the four-keyword superset in scan_artifacts.py and the
three-keyword subset (no TOKEN) in scan_s3_artifacts.py. -/
theorem c5_pattern_language_per_variant (s : List Char) :
    (acceptsFull leaked_string_keywords s = true ↔
      patternLanguage leaked_string_keywords s) ∧
    (acceptsFull leaked_string_keywords_s3 s = true ↔
      patternLanguage leaked_string_keywords_s3 s) :=
  ⟨acceptsFull_iff leaked_string_keywords s,
   acceptsFull_iff leaked_string_keywords_s3 s⟩

/-- C5 witness: the characterization instantiated at `API_SECRET_KEY`. -/
theorem c5_pattern_language_per_variant_witness :
    (acceptsFull leaked_string_keywords "API_SECRET_KEY".toList = true ↔
      patternLanguage leaked_string_keywords "API_SECRET_KEY".toList) ∧
    (acceptsFull leaked_string_keywords_s3 "API_SECRET_KEY".toList = true ↔
      patternLanguage leaked_string_keywords_s3 "API_SECRET_KEY".toList) :=
  c5_pattern_language_per_variant "API_SECRET_KEY".toList

/-- C6: a blob named `archive.tar` whose bytes decode, through the tar
library, to exactly one regular file `config.txt` with content
`MY_SECRET_TOKEN=hello\n`, scanned in default non-env-only mode with an
empty sensitive-string set, produces exactly one Finding: logical path
`archive.tar/config.txt`, line 1, matched text `MY_SECRET_TOKEN`. -/
theorem c6_tar_round_trip (lib : ArchiveLib) (bs : Bytes)
    (htar : lib.tarDecode bs =
      Except.ok [⟨"config.txt", true, some (strBytes "MY_SECRET_TOKEN=hello\n")⟩]) :
    scan_local_file lib ⟨false, leaked_string_keywords, []⟩
        ⟨"archive.tar", Except.ok bs⟩ =
      [⟨"archive.tar/config.txt", 1, "MY_SECRET_TOKEN"⟩] := by
  have h1 : scan_tar lib ⟨false, leaked_string_keywords, []⟩ bs "archive.tar" =
      Except.ok [⟨"archive.tar/config.txt", 1, "MY_SECRET_TOKEN"⟩] := by
    unfold scan_tar
    rw [htar]
    rfl
  rw [scan_local_file_ok]
  show catchScanErrors
    (scan_tar lib ⟨false, leaked_string_keywords, []⟩ bs "archive.tar") = _
  rw [h1]
  rfl

/-- C6 witness: the round trip evaluated on the toy tar decoder. -/
theorem c6_tar_round_trip_witness :
    scan_local_file tarLibRoundTrip ⟨false, leaked_string_keywords, []⟩
        ⟨"archive.tar", Except.ok (strBytes "TARDATA")⟩ =
      [⟨"archive.tar/config.txt", 1, "MY_SECRET_TOKEN"⟩] :=
  c6_tar_round_trip tarLibRoundTrip (strBytes "TARDATA") rfl

/-- C7: the scan is a pure function of the process environment and the
enumerated blobs — a second run of either mode over identical environment
and identical blob sequences (each run starting from the fresh scanner
state that `__main__` constructs) yields the identical ordered Finding
list. -/
theorem c7_deterministic_rerun (lib : ArchiveLib) (kws : List (List Char))
    (b : Bool) (env env2 : List (String × String))
    (entries entries2 : List PathEntry) (objs objs2 : List S3Object)
    (henv : env = env2) (hent : entries = entries2) (hobj : objs = objs2) :
    run_files lib kws b env entries = run_files lib kws b env2 entries2 ∧
    run_s3 lib kws b env objs = run_s3 lib kws b env2 objs2 := by
  subst henv; subst hent; subst hobj
  exact ⟨rfl, rfl⟩

/-- C7 witness: two runs over the same concrete environment and blobs. -/
theorem c7_deterministic_rerun_witness :
    run_files errLib leaked_string_keywords false [("MY_SECRET", "s3cr3t")]
        [PathEntry.file ⟨"a.txt", Except.ok (strBytes "hello")⟩] =
      run_files errLib leaked_string_keywords false [("MY_SECRET", "s3cr3t")]
        [PathEntry.file ⟨"a.txt", Except.ok (strBytes "hello")⟩] ∧
    run_s3 errLib leaked_string_keywords false [("MY_SECRET", "s3cr3t")]
        [⟨"a.txt", Except.ok (strBytes "hello")⟩] =
      run_s3 errLib leaked_string_keywords false [("MY_SECRET", "s3cr3t")]
        [⟨"a.txt", Except.ok (strBytes "hello")⟩] :=
  c7_deterministic_rerun errLib leaked_string_keywords false _ _ _ _ _ _
    rfl rfl rfl

/-- C8 counterexample: on the missing-tool path `subprocess.run` raises
before `os.remove` is reached, so the temporary file is not removed (the
second component is `false`), refuting the removed-on-every-exit-path
clause; and when the tool runs but exits non-zero (exit status 1 here), the
status is ignored and the contents of the extraction directory are scanned
anyway, refuting the not-scanned clause. -/
theorem c8_deb_cleanup_counterexample :
    scan_deb_with_cleanup cfgPlain ExtractOutcome.raisesMissing "pkg.deb" =
      (Except.error ScanErr.externalToolMissing, false) ∧
    scan_deb_with_cleanup cfgPlain
        (ExtractOutcome.completes 1 [("/tmp/package/etc/conf", "MY_SECRET=1")])
        "pkg.deb" =
      (Except.ok [⟨"pkg.deb//tmp/package/etc/conf", 1, "MY_SECRET"⟩], true) :=
  ⟨rfl, rfl⟩

/-- C8 (amended): when the external deb/rpm tool is missing, the
`FileNotFoundError` from `subprocess.run` propagates out of the decoder —
the blob contributes no findings, in the local path because the outer
handler catches the exception and the scan continues, but the temporary
file is not removed on that path; when the tool runs and exits non-zero,
the exit status is ignored: whatever lies in the extraction directory is
scanned and the temporary file is removed. -/
theorem c8_deb_rpm_tool_failure_behaviour :
    (∀ cfg (pkg : String),
      scan_deb_with_cleanup cfg ExtractOutcome.raisesMissing pkg =
        (Except.error ScanErr.externalToolMissing, false)) ∧
    (∀ cfg (pkg : String) (code : Int) files,
      scan_deb_with_cleanup cfg (ExtractOutcome.completes code files) pkg =
        (Except.ok ((files.map (fun fe =>
          scan_file cfg fe.2.toList (pkg ++ "/" ++ fe.1))).flatten), true)) ∧
    (∀ cfg (pkg : String),
      scan_rpm_with_cleanup cfg ExtractOutcome.raisesMissing pkg =
        (Except.error ScanErr.externalToolMissing, false)) ∧
    (∀ cfg (pkg : String) (code : Int) files,
      scan_rpm_with_cleanup cfg (ExtractOutcome.completes code files) pkg =
        (Except.ok ((files.map (fun fe =>
          scan_file cfg fe.2.toList (pkg ++ "/" ++ fe.1))).flatten), true)) ∧
    (∀ lib cfg (bs : Bytes),
      lib.dpkgDebRun bs = ExtractOutcome.raisesMissing →
      scan_local_file lib cfg ⟨"a.deb", Except.ok bs⟩ = []) := by
  refine ⟨fun _ _ => rfl, fun _ _ _ _ => rfl, fun _ _ => rfl, fun _ _ _ _ => rfl, ?_⟩
  intro lib cfg bs hrun
  have he : scan_deb lib cfg bs "a.deb" =
      Except.error ScanErr.externalToolMissing := by
    unfold scan_deb
    rw [hrun]
    rfl
  exact scan_local_file_dispatch_error rfl he

/-- C8 witness: concrete instances — in particular the local path skips a
`.deb` blob whose extraction tool is missing and carries on. -/
theorem c8_deb_rpm_tool_failure_witness :
    scan_rpm_with_cleanup cfgPlain ExtractOutcome.raisesMissing "pkg.rpm" =
      (Except.error ScanErr.externalToolMissing, false) ∧
    scan_rpm_with_cleanup cfgPlain
        (ExtractOutcome.completes 2 [("/tmp/package/a", "x")]) "pkg.rpm" =
      (Except.ok (([("/tmp/package/a", "x")].map (fun fe =>
        scan_file cfgPlain fe.2.toList ("pkg.rpm" ++ "/" ++ fe.1))).flatten),
       true) ∧
    scan_local_file errLib cfgPlain ⟨"a.deb", Except.ok (strBytes "DEB")⟩ = [] :=
  ⟨c8_deb_rpm_tool_failure_behaviour.2.2.1 cfgPlain "pkg.rpm",
   c8_deb_rpm_tool_failure_behaviour.2.2.2.1 cfgPlain "pkg.rpm" 2
     [("/tmp/package/a", "x")],
   c8_deb_rpm_tool_failure_behaviour.2.2.2.2 errLib cfgPlain
     (strBytes "DEB") rfl⟩

/-- C9: once the environment harvest has stored an empty sensitive value
(an environment variable with pattern-matching name and empty value is
harvested into the set), every line of every subsequently scanned unit
yields a Finding whose matched text is the bare ellipsis marker, in normal
and env-secrets-only mode alike, because the empty string is a substring of
every line. -/
theorem c9_empty_env_value_matches_every_line :
    (∀ kws env (name v : String), (name, v) ∈ env →
      (matchAt kws name.toList).isSome = true →
      v.toList ∈ scan_env_vars kws env) ∧
    (∀ cfg (content : List Char) (file_name : String) (i : Nat),
      i < (splitlines content).length →
      [] ∈ cfg.sensitive_strings →
      (⟨file_name, 1 + i, "..."⟩ : Finding) ∈
        scan_file cfg content file_name) := by
  constructor
  · intro kws env name v hmem hmatch
    unfold scan_env_vars
    exact List.mem_map_of_mem _ (List.mem_filter.mpr ⟨hmem, hmatch⟩)
  · intro cfg content file_name i h hempty
    exact mem_scan_file_of_line h
      (scan_file_line_mem_sensitive hempty
        (substrIn_nil ((splitlines content).get ⟨i, h⟩)))

/-- C9 witness: the variable `SECRET_KEY` with empty value is harvested,
and in env-secrets-only mode with the empty string harvested, line 1 of
`hello` yields the bare-marker Finding. -/
theorem c9_empty_env_value_witness :
    ("" : String).toList ∈
      scan_env_vars leaked_string_keywords [("SECRET_KEY", "")] ∧
    (⟨"u.txt", 1 + 0, "..."⟩ : Finding) ∈
      scan_file ⟨true, leaked_string_keywords, [[]]⟩ "hello".toList "u.txt" :=
  ⟨c9_empty_env_value_matches_every_line.1 leaked_string_keywords
     [("SECRET_KEY", "")] "SECRET_KEY" "" (by decide) (by decide),
   c9_empty_env_value_matches_every_line.2
     ⟨true, leaked_string_keywords, [[]]⟩ "hello".toList "u.txt" 0
     (by decide) (by decide)⟩

/-- C10: environment harvesting uses `re.match`, anchored at position 0 —
if every keyword occurrence in a variable name is preceded by some
character outside `[A-Z_]`, the name does not match and that variable
contributes nothing to the sensitive-string set — while content scanning
uses `finditer`, which finds the pattern anywhere in a line, so the same
text occurring in scanned content does produce a pattern Finding. -/
theorem c10_env_match_anchored_content_not :
    (∀ kws (name v : String) env,
      (∀ i, i ≤ name.toList.length → ∀ k, k ∈ kws →
        k.isPrefixOf (name.toList.drop i) = true →
        (name.toList.take i).all isUpperOrUnderscore = false) →
      matchAt kws name.toList = none ∧
      scan_env_vars kws ((name, v) :: env) = scan_env_vars kws env) ∧
    (∀ cfg (file_name : String) (line : List Char),
      cfg.env_secrets_only = false →
      (∃ i k, k ∈ cfg.keywords ∧ k ≠ [] ∧ k.isPrefixOf (line.drop i) = true) →
      line.all (fun c => !(isLineBreak c)) = true →
      scan_file cfg line file_name ≠ []) := by
  constructor
  · intro kws name v env H
    have hnone : matchAt kws name.toList = none := matchAt_eq_none_of_dirty H
    refine ⟨hnone, ?_⟩
    have hnone2 : matchAt kws name.data = none := hnone
    unfold scan_env_vars
    rw [List.filter_cons]
    simp [hnone2]
  · intro cfg file_name line hflag hex hall
    have hne : line ≠ [] := by
      intro h
      subst h
      obtain ⟨i, k, hk, hkne, hp⟩ := hex
      rw [List.drop_nil, isPrefixOf_nil_eq_false hkne] at hp
      cases hp
    have hsplit : splitlines line = [line] := splitlines_single hne hall
    have hfind : finditer cfg.keywords line ≠ [] := finditer_ne_nil hex
    have hline : scan_file_line cfg file_name 1 line ≠ [] := by
      unfold scan_file_line
      rw [hflag]
      intro hempty
      rw [List.append_eq_nil] at hempty
      have h1 := hempty.1
      rw [if_neg (by simp)] at h1
      rw [List.map_eq_nil_iff] at h1
      exact hfind h1
    have hcomp : scan_file cfg line file_name =
        scan_file_line cfg file_name 1 line ++ [] := by
      unfold scan_file
      rw [hsplit]
      rfl
    rw [hcomp, List.append_nil]
    exact hline

/-- C10 witness: the name `my_SECRET` is not harvested (its keyword
occurrence is preceded by the lowercase prefix), while the same text as a
content line produces a pattern Finding. -/
theorem c10_env_match_anchored_witness :
    (matchAt leaked_string_keywords "my_SECRET".toList = none ∧
      scan_env_vars leaked_string_keywords [("my_SECRET", "val")] =
        scan_env_vars leaked_string_keywords []) ∧
    scan_file cfgPlain "my_SECRET".toList "w.txt" ≠ [] :=
  ⟨c10_env_match_anchored_content_not.1 leaked_string_keywords
     "my_SECRET" "val" [] (by decide),
   c10_env_match_anchored_content_not.2 cfgPlain "w.txt" "my_SECRET".toList
     rfl ⟨3, "SECRET".toList, by decide, by decide, by decide⟩ (by decide)⟩

/-- Sanity evaluation of the matcher, kept as a named fact: `finditer`
recovers `MY_SECRET_TOKEN` from the round-trip content line, the anchored
`re.match` rejects `my_SECRET`, and `splitlines` treats `\r\n` as one
break. -/
theorem scanner_model_sanity :
    finditer leaked_string_keywords "MY_SECRET_TOKEN=hello".toList =
      ["MY_SECRET_TOKEN".toList] ∧
    (matchAt leaked_string_keywords "my_SECRET".toList).isSome = false ∧
    splitlines "a\r\nb\nc".toList = ["a".toList, "b".toList, "c".toList] := by
  refine ⟨by decide, by decide, by decide⟩
